import Mathlib

/-!
# Verification of the MIME content decoding pipeline of `examples/fetch.ts`

This file gives a shallow embedding, over `List Char`, of the string-processing
core of the repository's `examples/fetch.ts`: the transfer decoders
(`decodeBase64`, `decodeQuotedPrintable`, `decodeBody`), the header parsers,
`getContentInfo`, `parseMultipartMessage`, and the two body-rendering paths of
`main` (the structured path over a pre-parsed header map and the raw path over
the whole message text).

JavaScript strings are modelled as `List Char`; the JS string methods used by
the source (`split`, `trim`, `includes`, `startsWith`, `toLowerCase`, regex
matching for the specific regexes occurring in the source) are modelled
explicitly below, restricted to the character sets the source exercises
(`toLowerCase` is modelled on the ASCII fragment).  The platform primitives
`atob` (WHATWG forgiving-base64) and `TextDecoder` (UTF-8 decoding) are
modelled from their standard behaviour; for `TextDecoder` only the behaviour
on valid UTF-8 input is relied upon by any theorem.
-/

set_option linter.unusedVariables false

namespace Fetch

/-- The set matched by the JavaScript regex class `\s` and removed by
`String.prototype.trim` (we list the code points the source can meet;
the full JS set also holds further exotic Unicode spaces). -/
def jsWs (c : Char) : Bool :=
  c = ' ' ∨ c = '\t' ∨ c = '\n' ∨ c = '\x0b' ∨ c = '\x0c' ∨ c = '\r' ∨
  c = ' ' ∨ c = '﻿'

/-- JavaScript line terminators (not matched by `.` in a regex). -/
def jsLineTerm (c : Char) : Bool :=
  c = '\n' ∨ c = '\r' ∨ c = ' ' ∨ c = ' '

/-- ASCII whitespace, the set removed by WHATWG forgiving-base64 (`atob`). -/
def asciiWs (c : Char) : Bool :=
  c = '\t' ∨ c = '\n' ∨ c = '\x0c' ∨ c = '\r' ∨ c = ' '

/-- `String.prototype.trim`, on `List Char`. -/
def jsTrim (l : List Char) : List Char :=
  ((l.dropWhile jsWs).reverse.dropWhile jsWs).reverse

/-- ASCII lower-casing of one character: the fragment of JavaScript
`toLowerCase` exercised by the source (header values are ASCII). -/
def jsLowerChar (c : Char) : Char :=
  if 65 ≤ c.toNat ∧ c.toNat ≤ 90 then Char.ofNat (c.toNat + 32) else c

/-- `String.prototype.toLowerCase` on the ASCII fragment. -/
def jsToLower (l : List Char) : List Char :=
  l.map jsLowerChar

/-- One step of building split fragments: prepend a character to the first
fragment of an already-computed fragment list. -/
def consHead (c : Char) : List (List Char) → List (List Char)
  | [] => [[c]]
  | l :: ls => (c :: l) :: ls

/-- Fuel-driven worker for `String.prototype.split` with a non-empty literal
separator: scan left to right; whenever the separator is a prefix, end the
current fragment and continue after it.  The fuel only serves to make the
recursion structural; `splitOn` supplies enough fuel for it never to run out. -/
def splitOnF : Nat → List Char → List Char → List (List Char)
  | 0, _, cs => [cs]
  | n + 1, sep, cs =>
    if sep ≠ [] ∧ sep.isPrefixOf cs then
      [] :: splitOnF n sep (cs.drop sep.length)
    else
      match cs with
      | [] => [[]]
      | c :: rest => consHead c (splitOnF n sep rest)

/-- `String.prototype.split` with a literal (non-empty) separator string. -/
def splitOn (sep cs : List Char) : List (List Char) :=
  splitOnF (cs.length + 1) sep cs

/-- `String.prototype.includes`: is `sub` a contiguous substring of `l`? -/
def jsIncludes (l sub : List Char) : Bool :=
  match l with
  | [] => sub.isPrefixOf ([] : List Char)
  | _ :: rest => sub.isPrefixOf l || jsIncludes rest sub

/-- `String.prototype.startsWith` on lists. -/
def jsStartsWith (l pre : List Char) : Bool :=
  pre.isPrefixOf l

end Fetch

namespace Fetch

/- ## Fuel elimination and unfolding lemmas for `splitOn` -/

theorem drop_sep_length_lt {sep cs : List Char} (h1 : sep ≠ [])
    (h2 : sep.isPrefixOf cs) : (cs.drop sep.length).length < cs.length := by
  have hle : sep.length ≤ cs.length :=
    List.IsPrefix.length_le (List.isPrefixOf_iff_prefix.mp h2)
  have hpos : 0 < sep.length := List.length_pos.mpr h1
  rw [List.length_drop]
  omega

theorem splitOnF_fuel (sep : List Char) :
    ∀ n m cs, cs.length < n → cs.length < m →
      splitOnF n sep cs = splitOnF m sep cs := by
  intro n
  induction n with
  | zero => intro m cs h _; omega
  | succ n ih =>
    intro m cs h hm
    match m with
    | 0 => omega
    | m + 1 =>
      simp only [splitOnF]
      by_cases hpre : sep ≠ [] ∧ sep.isPrefixOf cs
      · simp only [if_pos hpre]
        have hd := drop_sep_length_lt hpre.1 hpre.2
        rw [ih m (cs.drop sep.length) (by omega) (by omega)]
      · simp only [if_neg hpre]
        match cs with
        | [] => rfl
        | c :: rest =>
          simp only []
          have hr : rest.length + 1 = (c :: rest).length := rfl
          rw [ih m rest (by omega) (by omega)]

theorem splitOn_nil (sep : List Char) : splitOn sep [] = [[]] := by
  simp only [splitOn, splitOnF]
  by_cases h : sep ≠ [] ∧ sep.isPrefixOf ([] : List Char)
  · rcases h with ⟨h1, h2⟩
    cases sep with
    | nil => exact absurd rfl h1
    | cons a l => simp [List.isPrefixOf] at h2
  · simp [if_neg h]

theorem splitOn_pos {sep cs : List Char} (h1 : sep ≠ []) (h2 : sep.isPrefixOf cs) :
    splitOn sep cs = [] :: splitOn sep (cs.drop sep.length) := by
  have hd := drop_sep_length_lt h1 h2
  conv_lhs => rw [splitOn]
  simp only [splitOnF, if_pos (And.intro h1 h2)]
  rw [splitOn, splitOnF_fuel sep cs.length ((cs.drop sep.length).length + 1)
    (cs.drop sep.length) (by omega) (by omega)]

theorem splitOn_neg {sep : List Char} {c : Char} {cs : List Char}
    (h : ¬(sep ≠ [] ∧ sep.isPrefixOf (c :: cs))) :
    splitOn sep (c :: cs) = consHead c (splitOn sep cs) := by
  simp only [splitOn, splitOnF, if_neg h, List.length_cons]

theorem splitOn_ne_nil (sep cs : List Char) : splitOn sep cs ≠ [] := by
  rw [splitOn]
  generalize cs.length + 1 = n
  induction n generalizing cs with
  | zero => simp [splitOnF]
  | succ n ih =>
    simp only [splitOnF]
    split
    · simp
    · match cs with
      | [] => simp
      | c :: rest =>
        simp only []
        cases hr : splitOnF n sep rest with
        | nil => exact absurd hr (ih rest)
        | cons a l => simp [consHead]

/- ## Quoted-printable decoding (`decodeQuotedPrintable`, source lines 45-56) -/

/-- A character matched by `[0-9A-F]` — the hexadecimal digits accepted by the
source's escape regex `=([0-9A-F]{2})` (upper case only). -/
def isUpperHex (c : Char) : Bool :=
  ('0' ≤ c ∧ c ≤ '9') ∨ ('A' ≤ c ∧ c ≤ 'F')

/-- Numeric value of an `[0-9A-F]` digit. -/
def hexVal (c : Char) : Nat :=
  if c ≤ '9' then c.toNat - 48 else c.toNat - 55

/-- `str.replace(/=\r\n/g, "")`: delete every occurrence of `=` CR LF,
scanning left to right. -/
def removeSoftBreaks : List Char → List Char
  | '=' :: '\r' :: '\n' :: rest => removeSoftBreaks rest
  | c :: rest => c :: removeSoftBreaks rest
  | [] => []

/-- `str.replace(/=([0-9A-F]{2})/g, ..fromCharCode(parseInt(hex,16))..)`:
replace each `=XX` escape (upper-case hex digits) by the character with that
code, scanning left to right without rescanning replacements. -/
def replaceEscapes : List Char → List Char
  | '=' :: h1 :: h2 :: rest =>
    if isUpperHex h1 ∧ isUpperHex h2 then
      Char.ofNat (16 * hexVal h1 + hexVal h2) :: replaceEscapes rest
    else
      '=' :: replaceEscapes (h1 :: h2 :: rest)
  | c :: rest => c :: replaceEscapes rest
  | [] => []

/-- `decodeQuotedPrintable` (source lines 45-56): remove soft line breaks, then
replace the escapes.  The `try`/`catch` of the source can never fire (neither
replacement throws), so the fallback branch is dead and not modelled. -/
def decodeQuotedPrintable (str : List Char) : List Char :=
  replaceEscapes (removeSoftBreaks str)

/- ## Base64 decoding (`decodeBase64`, source lines 29-38) -/

/-- Value of a base64 alphabet character, `none` for a character outside the
alphabet (which makes `atob` throw). -/
def charToSix (c : Char) : Option Nat :=
  if 'A' ≤ c ∧ c ≤ 'Z' then some (c.toNat - 65)
  else if 'a' ≤ c ∧ c ≤ 'z' then some (c.toNat - 71)
  else if '0' ≤ c ∧ c ≤ '9' then some (c.toNat + 4)
  else if c = '+' then some 62
  else if c = '/' then some 63
  else none

/-- Decode a padding-stripped base64 character sequence into bytes, four
characters (three bytes) at a time; a final group of two or three characters
yields one or two bytes with the surplus low bits discarded (WHATWG
forgiving-base64).  `none` on any character outside the alphabet, and on a
single trailing character (excluded anyway by the length check of `atob`). -/
def decode64 : List Char → Option (List Nat)
  | [] => some []
  | [_] => none
  | [c0, c1] => do
    let v0 ← charToSix c0
    let v1 ← charToSix c1
    pure [v0 * 4 + v1 / 16]
  | [c0, c1, c2] => do
    let v0 ← charToSix c0
    let v1 ← charToSix c1
    let v2 ← charToSix c2
    pure [v0 * 4 + v1 / 16, v1 % 16 * 16 + v2 / 4]
  | c0 :: c1 :: c2 :: c3 :: rest => do
    let v0 ← charToSix c0
    let v1 ← charToSix c1
    let v2 ← charToSix c2
    let v3 ← charToSix c3
    let bs ← decode64 rest
    pure ((v0 * 4 + v1 / 16) :: (v1 % 16 * 16 + v2 / 4) :: (v2 % 4 * 64 + v3) :: bs)

/-- Strip one or two trailing `=` characters (WHATWG forgiving-base64 does
this only when the length is a multiple of four; the caller checks that). -/
def stripPadding (l : List Char) : List Char :=
  if l.getLast? = some '=' then
    if l.dropLast.getLast? = some '=' then l.dropLast.dropLast else l.dropLast
  else l

/-- The platform's `atob` (WHATWG forgiving-base64 decode), returning the
decoded bytes — the code units of the binary string `atob` returns, which are
exactly the bytes recovered by `Uint8Array.from(atob(str), c => c.charCodeAt(0))`
in the source.  `none` models `atob` throwing `InvalidCharacterError`. -/
def atob (str : List Char) : Option (List Nat) :=
  let d := str.filter (fun c => ¬ asciiWs c)
  let d := if d.length % 4 = 0 then stripPadding d else d
  if d.length % 4 = 1 then none else decode64 d

/-- The replacement character U+FFFD emitted by `TextDecoder` on invalid
UTF-8 input. -/
def repl : Char := Char.ofNat 0xFFFD

/-- Is `b` a UTF-8 continuation byte? -/
def contOK (b : Nat) : Bool := 0x80 ≤ b ∧ b ≤ 0xBF

/-- Admissible first continuation byte of a three-byte sequence with lead
byte `b0` (WHATWG UTF-8 decoder; excludes overlong forms and surrogates). -/
def cont3OK (b0 b1 : Nat) : Bool :=
  if b0 = 0xE0 then 0xA0 ≤ b1 ∧ b1 ≤ 0xBF
  else if b0 = 0xED then 0x80 ≤ b1 ∧ b1 ≤ 0x9F
  else contOK b1

/-- Admissible first continuation byte of a four-byte sequence with lead
byte `b0`. -/
def cont4OK (b0 b1 : Nat) : Bool :=
  if b0 = 0xF0 then 0x90 ≤ b1 ∧ b1 ≤ 0xBF
  else if b0 = 0xF4 then 0x80 ≤ b1 ∧ b1 ≤ 0x8F
  else contOK b1

/-- One step of UTF-8 decoding: given a lead byte and the remaining bytes,
produce the decoded character (U+FFFD for invalid input) and the bytes left
to decode. -/
def utf8Step (b0 : Nat) (rest : List Nat) : Char × List Nat :=
  if b0 < 0x80 then (Char.ofNat b0, rest)
  else if b0 < 0xC2 then (repl, rest)
  else if b0 < 0xE0 then
    match rest with
    | b1 :: r =>
      if contOK b1 then (Char.ofNat ((b0 - 0xC0) * 64 + (b1 - 0x80)), r)
      else (repl, b1 :: r)
    | [] => (repl, [])
  else if b0 < 0xF0 then
    match rest with
    | b1 :: b2 :: r =>
      if cont3OK b0 b1 ∧ contOK b2 then
        (Char.ofNat ((b0 - 0xE0) * 4096 + (b1 - 0x80) * 64 + (b2 - 0x80)), r)
      else (repl, b1 :: b2 :: r)
    | r => (repl, r)
  else if b0 < 0xF5 then
    match rest with
    | b1 :: b2 :: b3 :: r =>
      if cont4OK b0 b1 ∧ contOK b2 ∧ contOK b3 then
        (Char.ofNat ((b0 - 0xF0) * 262144 + (b1 - 0x80) * 4096
          + (b2 - 0x80) * 64 + (b3 - 0x80)), r)
      else (repl, b1 :: b2 :: b3 :: r)
    | r => (repl, r)
  else (repl, rest)

theorem utf8Step_shrink (b0 : Nat) (rest : List Nat) :
    (utf8Step b0 rest).2.length ≤ rest.length := by
  rw [utf8Step.eq_def]
  split
  · simp
  · split
    · simp
    · split
      · split
        · split
          · simp [List.length_cons]
          · simp
        · simp
      · split
        · split
          · split
            · simp [List.length_cons]
              omega
            · simp
          · simp
        · split
          · split
            · split
              · simp [List.length_cons]
                omega
              · simp
            · simp
          · simp

/-- The platform's `new TextDecoder().decode` on a byte sequence: UTF-8
decoding.  On valid UTF-8 this is exact; on invalid input `TextDecoder` is
non-fatal and emits U+FFFD — modelled here by emitting U+FFFD and resuming
after the offending lead byte (the exact resynchronisation points of the
WHATWG decoder are not relied upon by any theorem below). -/
def utf8Decode : List Nat → List Char
  | [] => []
  | b0 :: rest =>
    (utf8Step b0 rest).1 :: utf8Decode (utf8Step b0 rest).2
termination_by l => l.length
decreasing_by
  have := utf8Step_shrink b0 rest
  simp only [List.length_cons]
  omega

/-- `decodeBase64` (source lines 29-38): decode via `atob` and reinterpret the
bytes as UTF-8 text; if `atob` throws, warn and return the input unchanged. -/
def decodeBase64 (str : List Char) : List Char :=
  match atob str with
  | some bytes => utf8Decode bytes
  | none => str

/- ## `decodeBody` (source lines 64-78) -/

/-- `decodeBody`: dispatch on the lower-cased `Content-Transfer-Encoding`.
A missing (`none`) or empty encoding is falsy in JS and returns the body
unchanged; `"7bit"`, `"8bit"`, `"binary"` and every unrecognized value are
the identity. -/
def decodeBody (body : List Char) (encoding : Option (List Char)) : List Char :=
  match encoding with
  | none => body
  | some e =>
    if e = [] then body
    else if jsToLower e = "base64".data then decodeBase64 body
    else if jsToLower e = "quoted-printable".data then decodeQuotedPrintable body
    else body

/- ## `getContentInfo` (source lines 85-112) -/

/-- A value of the structured header map `Record<string, string | string[]>`:
either a single string or a (non-empty, as produced by the protocol client)
array of strings. -/
inductive HVal where
  | one (v : List Char)
  | many (hd : List Char) (tl : List (List Char))
deriving DecidableEq

/-- JS truthiness of a header value: the empty string is falsy, an array is
always truthy. -/
def HVal.truthy : HVal → Bool
  | .one v => v ≠ []
  | .many _ _ => true

/-- `Array.isArray(h) ? h[0] : h` — the string the source extracts. -/
def HVal.first : HVal → List Char
  | .one v => v
  | .many hd _ => hd

/-- Lookup in an association list modelling a JS object (keys unique by
construction; first match). -/
def lookupH (m : List (List Char × HVal)) (k : List Char) : Option HVal :=
  match m with
  | [] => none
  | (k', v) :: t => if k' = k then some v else lookupH t k

/-- Lookup in a string-valued association list. -/
def lookupS (m : List (List Char × List Char)) (k : List Char) : Option (List Char) :=
  match m with
  | [] => none
  | (k', v) :: t => if k' = k then some v else lookupS t k

/-- `headers[name] = value` on an association list: overwrite the existing
entry or append a new one. -/
def upsert (m : List (List Char × List Char)) (k v : List Char) :
    List (List Char × List Char) :=
  match m with
  | [] => [(k, v)]
  | (k', v') :: t => if k' = k then (k, v) :: t else (k', v') :: upsert t k v

/-- The character class `[^";\s]` of the boundary regex. -/
def isBChar (c : Char) : Bool :=
  c ≠ '"' ∧ c ≠ ';' ∧ ¬ jsWs c

/-- Attempt the tail `"?([^";\s]+)"?` of the boundary regex at a fixed
position (after `boundary=` has matched), returning the captured group:
an optional opening quote, then at least one boundary character (the greedy
capture), then an optional closing quote.  A quote is not a boundary
character, so when the optional quote is consumed the capture must start at
the next character; backtracking over the optional quote cannot succeed. -/
def boundaryCapture (after : List Char) : Option (List Char) :=
  match after with
  | [] => none
  | c :: rest =>
    if c = '"' then
      match rest with
      | [] => none
      | c2 :: _ => if isBChar c2 then some (rest.takeWhile isBChar) else none
    else if isBChar c then some (after.takeWhile isBChar) else none

/-- `ctHeader.match(/boundary="?([^";\s]+)"?/i)`: scan left to right for the
first position where the case-insensitive literal `boundary=` followed by the
capture tail matches, and return capture group 1. -/
def findBoundary (cs : List Char) : Option (List Char) :=
  match cs with
  | [] => none
  | _ :: rest =>
    if "boundary=".data.isPrefixOf (jsToLower cs) then
      match boundaryCapture (cs.drop 9) with
      | some cap => some cap
      | none => findBoundary rest
    else findBoundary rest

/-- `ctHeader.match(/^([^;]+)/)`: group 1 is the maximal non-`;` prefix;
the match fails iff the string is empty or starts with `;`. -/
def ctPrefix (cs : List Char) : Option (List Char) :=
  match cs with
  | [] => none
  | c :: _ => if c = ';' then none else some (cs.takeWhile (fun c => ¬ c = ';'))

/-- The record returned by `getContentInfo`. -/
structure ContentInfo where
  contentType : List Char
  encoding : List Char
  boundary : Option (List Char)
deriving DecidableEq

/-- The `(contentType, boundary)` pair `getContentInfo` derives from the
(optional) `Content-Type` header value: inside the truthiness guard, the
`/^([^;]+)/` match (trimmed, lower-cased, defaulting to `text/plain`) and
the unconditional boundary capture. -/
def ctPair (o : Option HVal) : List Char × Option (List Char) :=
  match o with
  | some v =>
    if v.truthy then
      (match ctPrefix v.first with
        | some p => jsToLower (jsTrim p)
        | none => "text/plain".data,
        findBoundary v.first)
    else ("text/plain".data, none)
  | none => ("text/plain".data, none)

/-- The encoding `getContentInfo` derives from the (optional)
`Content-Transfer-Encoding` header value: trimmed and lower-cased, with the
`7bit` default. -/
def cteValue (o : Option HVal) : List Char :=
  match o with
  | some v => if v.truthy then jsToLower (jsTrim v.first) else "7bit".data
  | none => "7bit".data

/-- `getContentInfo` (source lines 85-112): derive content type (truncated at
`;`, trimmed, lower-cased, defaulting to `text/plain`), transfer encoding
(trimmed, lower-cased, defaulting to `7bit`) and the boundary parameter
captured from the full `Content-Type` value. -/
def getContentInfo (headers : List (List Char × HVal)) : ContentInfo :=
  { contentType := (ctPair (lookupH headers "Content-Type".data)).1
    encoding := cteValue (lookupH headers "Content-Transfer-Encoding".data)
    boundary := (ctPair (lookupH headers "Content-Type".data)).2 }

/- ## Header-line parsing (`/^([^:]+):\s*(.*)/`) -/

/-- `line.match(/^([^:]+):\s*(.*)/)`: group 1 is the maximal non-`:` prefix
(which must be non-empty and followed by `:`), group 2 the remainder with
leading whitespace stripped, truncated at a line terminator (`.` does not
match those). -/
def parseHeaderLine (line : List Char) : Option (List Char × List Char) :=
  let name := line.takeWhile (fun c => ¬ c = ':')
  match line.drop name.length with
  | ':' :: rest =>
    if name = [] then none
    else some (name, (rest.dropWhile jsWs).takeWhile (fun c => ¬ jsLineTerm c))
  | _ => none

/-- The per-part header parser of `parseMultipartMessage` (source lines
138-146): split on CRLF, skip blank lines, enter each `name: value` line into
the object. -/
def parsePartHeaders (headersText : List Char) : List (List Char × List Char) :=
  (splitOn "\r\n".data headersText).foldl
    (fun hs line =>
      if jsTrim line = [] then hs
      else
        match parseHeaderLine line with
        | some (n, v) => upsert hs n v
        | none => hs)
    []

/- ## HTML stripping (source lines 167 and 308/385) -/

/-- `str.replace(/<[^>]*>/g, " ")`: each maximal `<`…first-`>` span becomes a
single space; a `<` with no subsequent `>` is left as-is (no match).  The
`tag` accumulator holds the characters read since an unclosed `<`. -/
def stripTagsGo : Option (List Char) → List Char → List Char
  | none, [] => []
  | none, c :: rest => if c = '<' then stripTagsGo (some []) rest else c :: stripTagsGo none rest
  | some tag, [] => '<' :: tag
  | some tag, c :: rest =>
    if c = '>' then ' ' :: stripTagsGo none rest else stripTagsGo (some (tag ++ [c])) rest

/-- `str.replace(/\s+/g, " ")`: collapse every whitespace run to one space.
The flag records whether the previous character was part of a run. -/
def collapseWsGo : Bool → List Char → List Char
  | _, [] => []
  | inRun, c :: rest =>
    if jsWs c then
      if inRun then collapseWsGo true rest else ' ' :: collapseWsGo true rest
    else c :: collapseWsGo false rest

/-- `html.replace(/<[^>]*>/g, " ").replace(/\s+/g, " ").trim()`. -/
def stripHtml (html : List Char) : List Char :=
  jsTrim (collapseWsGo false (stripTagsGo none html))

/- ## `parseMultipartMessage` (source lines 120-171) -/

/-- `headers[k] || dflt`: the JS `||` default (empty string is falsy). -/
def orDefault (o : Option (List Char)) (dflt : List Char) : List Char :=
  match o with
  | some v => if v = [] then dflt else v
  | none => dflt

/-- The loop body of `parseMultipartMessage` (source lines 127-161) acting on
the `(textContent, htmlContent)` accumulator pair: skip the fragment if its
trim is empty or it contains `--` or it has no CRLF CRLF separator; otherwise
parse its local headers, decode its content, and store it by content type. -/
def processPart (acc : List Char × List Char) (part : List Char) :
    List Char × List Char :=
  if jsTrim part = [] ∨ jsIncludes part "--".data then acc
  else
    match splitOn "\r\n\r\n".data part with
    | [] => acc
    | headersText :: contentParts =>
      if contentParts = [] then acc
      else
        let content := List.intercalate "\r\n\r\n".data contentParts
        let headers := parsePartHeaders headersText
        let contentType := orDefault (lookupS headers "Content-Type".data) "text/plain".data
        let encoding := orDefault (lookupS headers "Content-Transfer-Encoding".data) "7bit".data
        let decodedContent := decodeBody content (some encoding)
        if jsIncludes contentType "text/plain".data then (decodedContent, acc.2)
        else if jsIncludes contentType "text/html".data then (acc.1, decodedContent)
        else acc

/-- The accumulator pair after the fragment loop of `parseMultipartMessage`. -/
def multipartAccums (body boundary : List Char) : List Char × List Char :=
  (splitOn ("--".data ++ boundary) body).foldl processPart ([], [])

/-- `parseMultipartMessage` (source lines 120-171): split the body on
`--boundary`, process each fragment, then prefer plain text, else stripped
HTML, else the sentinel string. -/
def parseMultipartMessage (body boundary : List Char) : List Char :=
  let acc := multipartAccums body boundary
  if acc.1 ≠ [] then acc.1
  else if acc.2 ≠ [] then stripHtml acc.2
  else "No readable content found in the message.".data

/- ## The folding-aware raw-path header parser (source lines 327-353) -/

/-- Flush the currently accumulated header, if any (`if (currentHeader)
headers[currentHeader] = currentValue`; a header name is never empty, so the
JS truthiness test is just presence). -/
def flushCur (acc : List (List Char × List Char)) :
    Option (List Char × List Char) → List (List Char × List Char)
  | none => acc
  | some (n, v) => upsert acc n v

/-- The line loop of the raw-path header parser: a line starting with
whitespace continues the current header's value (appending a space and the
trimmed line); any other line first flushes the current header, then — if it
matches `name: value` — starts a new current header; on a match failure the
current header and value persist (they are not cleared by the source). -/
def parseBlockGo (cur : Option (List Char × List Char))
    (acc : List (List Char × List Char)) :
    List (List Char) → List (List Char × List Char)
  | [] => flushCur acc cur
  | line :: rest =>
    match line with
    | c :: _ =>
      if jsWs c then
        match cur with
        | some (n, v) => parseBlockGo (some (n, v ++ ' ' :: jsTrim line)) acc rest
        | none => parseBlockGo none acc rest
      else
        let acc' := flushCur acc cur
        match parseHeaderLine line with
        | some (n, v) => parseBlockGo (some (n, v)) acc' rest
        | none => parseBlockGo cur acc' rest
    | [] =>
      let acc' := flushCur acc cur
      parseBlockGo cur acc' rest

/-- `parseBlock`: the folding-aware header parser of the raw path (source
lines 324-353) applied to a header block. -/
def parseBlock (headerText : List Char) : List (List Char × List Char) :=
  parseBlockGo none [] (splitOn "\r\n".data headerText)

/- ## The two rendering paths of `main` -/

/-- The structured path (source lines 290-314), applied to a header map and
the raw body text of the message's TEXT section: extract the content info,
dispatch multipart bodies to `parseMultipartMessage`, otherwise decode and
strip HTML tags when the content type mentions `html`. -/
def structuredRender (headers : List (List Char × HVal)) (rawBodyText : List Char) :
    List Char :=
  let ci := getContentInfo headers
  match ci.boundary with
  | some b =>
    if jsStartsWith ci.contentType "multipart/".data then
      parseMultipartMessage rawBodyText b
    else
      let decodedBody := decodeBody rawBodyText (some ci.encoding)
      if jsIncludes ci.contentType "html".data then stripHtml decodedBody else decodedBody
  | none =>
    let decodedBody := decodeBody rawBodyText (some ci.encoding)
    if jsIncludes ci.contentType "html".data then stripHtml decodedBody else decodedBody

/-- The content info triple of the raw path (source lines 356-362): the RAW
`Content-Type` value (not truncated, trimmed or lower-cased), the raw
`Content-Transfer-Encoding` value defaulted by `||`, and the boundary
captured by the same regex as `getContentInfo`. -/
def rawContentInfo (headers : List (List Char × List Char)) :
    List Char × List Char × Option (List Char) :=
  match lookupS headers "Content-Type".data with
  | some ct =>
    if ct ≠ [] then
      (ct, orDefault (lookupS headers "Content-Transfer-Encoding".data) "7bit".data,
        findBoundary ct)
    else ("text/plain".data, "7bit".data, none)
  | none => ("text/plain".data, "7bit".data, none)

/-- The raw path (source lines 315-394): split the whole message on the first
blank lines, parse the header block with the folding-aware parser, and decode
the body; `none` models the `"Could not extract body from raw message"`
outcome when there is no blank-line separator.  Note the raw path dispatches
on `contentType.includes("multipart/")` over the raw header value and lower-
cases only for the `html` test. -/
def rawRender (rawText : List Char) : Option (List Char) :=
  match splitOn "\r\n\r\n".data rawText with
  | headerText :: r :: rs =>
    let headers := parseBlock headerText
    let ci := rawContentInfo headers
    let bodyText := List.intercalate "\r\n\r\n".data (r :: rs)
    some (
      match ci.2.2 with
      | some b =>
        if jsIncludes ci.1 "multipart/".data then parseMultipartMessage bodyText b
        else
          let decodedBody := decodeBody bodyText (some ci.2.1)
          if jsIncludes (jsToLower ci.1) "html".data then stripHtml decodedBody
          else decodedBody
      | none =>
        let decodedBody := decodeBody bodyText (some ci.2.1)
        if jsIncludes (jsToLower ci.1) "html".data then stripHtml decodedBody
        else decodedBody)
  | _ => none

/-- Lift a parsed (string-valued) header map to the structured shape. -/
def liftHeaders (hs : List (List Char × List Char)) : List (List Char × HVal) :=
  hs.map (fun p => (p.1, HVal.one p.2))

/- ## Derived views of the multipart loop, for the theorems below -/

/-- Does the multipart loop skip this fragment?  (Trimmed-empty, contains
`--`, or no CRLF CRLF separator.) -/
def skipFrag (p : List Char) : Prop :=
  jsTrim p = [] ∨ jsIncludes p "--".data = true ∨ (splitOn "\r\n\r\n".data p).length = 1

instance (p : List Char) : Decidable (skipFrag p) := by
  unfold skipFrag
  infer_instance

/-- The local content type of a non-skipped fragment. -/
def partContentType (p : List Char) : List Char :=
  orDefault (lookupS (parsePartHeaders ((splitOn "\r\n\r\n".data p).headD []))
    "Content-Type".data) "text/plain".data

/-- The decoded content of a non-skipped fragment: everything after the first
CRLF CRLF, decoded with the local transfer encoding. -/
def partDecoded (p : List Char) : List Char :=
  decodeBody (List.intercalate "\r\n\r\n".data ((splitOn "\r\n\r\n".data p).tail))
    (some (orDefault (lookupS (parsePartHeaders ((splitOn "\r\n\r\n".data p).headD []))
      "Content-Transfer-Encoding".data) "7bit".data))

/-- The processing a non-skipped fragment receives: header-parse, decode,
classify into the accumulator pair. -/
def classifyPart (acc : List Char × List Char) (p : List Char) :
    List Char × List Char :=
  if jsIncludes (partContentType p) "text/plain".data then (partDecoded p, acc.2)
  else if jsIncludes (partContentType p) "text/html".data then (acc.1, partDecoded p)
  else acc

theorem processPart_skip {p : List Char} (acc : List Char × List Char)
    (h : skipFrag p) : processPart acc p = acc := by
  unfold processPart
  rcases h with h | h | h
  · rw [if_pos (Or.inl h)]
  · rw [if_pos (Or.inr h)]
  · by_cases h2 : jsTrim p = [] ∨ jsIncludes p "--".data = true
    · rw [if_pos h2]
    · rw [if_neg h2]
      rcases hs : splitOn "\r\n\r\n".data p with _ | ⟨hd, tl⟩
      · exact absurd hs (splitOn_ne_nil _ _)
      · have htl : tl = [] := by
          rw [hs] at h
          simpa using h
        simp [hs, htl]

theorem processPart_not_skip {p : List Char} (acc : List Char × List Char)
    (h : ¬ skipFrag p) : processPart acc p = classifyPart acc p := by
  unfold skipFrag at h
  push_neg at h
  obtain ⟨h1, h2, h3⟩ := h
  rcases hs : splitOn "\r\n\r\n".data p with _ | ⟨hd, tl⟩
  · exact absurd hs (splitOn_ne_nil _ _)
  · have htl : tl ≠ [] := by
      intro hc
      rw [hs, hc] at h3
      simp at h3
    unfold processPart classifyPart partContentType partDecoded
    rw [if_neg (by
      intro hc
      rcases hc with hc | hc
      · exact h1 hc
      · exact h2 hc)]
    simp [hs, htl]

/-- Fold/filter form of the fragment loop. -/
theorem foldl_processPart_filter (l : List (List Char)) (acc : List Char × List Char) :
    l.foldl processPart acc
      = (l.filter (fun p => decide (¬ skipFrag p))).foldl classifyPart acc := by
  induction l generalizing acc with
  | nil => rfl
  | cons p t ih =>
    by_cases h : skipFrag p
    · rw [List.foldl_cons, List.filter_cons, processPart_skip acc h, if_neg (by simpa using h)]
      exact ih acc
    · rw [List.foldl_cons, List.filter_cons, processPart_not_skip acc h,
        if_pos (by simpa using h), List.foldl_cons]
      exact ih (classifyPart acc p)

/- ## Lemmas for quoted-printable decoding -/

theorem removeSoftBreaks_cons_ne {c : Char} (xs : List Char) (h : c ≠ '=') :
    removeSoftBreaks (c :: xs) = c :: removeSoftBreaks xs := by
  rw [removeSoftBreaks.eq_def]
  split
  · rename_i rest heq
    injection heq with h1 _
    exact absurd h1 h
  · rename_i c' rest heq
    injection heq with h1 h2
    rw [h1, h2]
  · rename_i heq
    cases heq

theorem removeSoftBreaks_eq_cons {h1 : Char} (xs : List Char) (h : h1 ≠ '\r') :
    removeSoftBreaks ('=' :: h1 :: xs) = '=' :: removeSoftBreaks (h1 :: xs) := by
  rw [removeSoftBreaks.eq_def]
  split
  · rename_i rest heq
    injection heq with _ h2
    injection h2 with h3 _
    exact absurd h3 h
  · rename_i c' rest heq
    injection heq with hc hrest
    rw [hc, hrest]
  · rename_i heq
    cases heq

theorem removeSoftBreaks_append {pre : List Char} (l : List Char) (h : '=' ∉ pre) :
    removeSoftBreaks (pre ++ l) = pre ++ removeSoftBreaks l := by
  induction pre with
  | nil => rfl
  | cons c t ih =>
    have hc : c ≠ '=' := fun hc => h (hc ▸ List.mem_cons_self c t)
    have ht : '=' ∉ t := fun hm => h (List.mem_cons_of_mem c hm)
    rw [List.cons_append, removeSoftBreaks_cons_ne _ hc, ih ht, List.cons_append]

theorem replaceEscapes_cons_ne {c : Char} (xs : List Char) (h : c ≠ '=') :
    replaceEscapes (c :: xs) = c :: replaceEscapes xs := by
  rw [replaceEscapes.eq_def]
  split
  · rename_i h1 h2 rest heq
    injection heq with ha _
    exact absurd ha h
  · rename_i c' rest heq
    injection heq with hc hrest
    rw [hc, hrest]
  · rename_i heq
    cases heq

theorem replaceEscapes_append {pre : List Char} (l : List Char) (h : '=' ∉ pre) :
    replaceEscapes (pre ++ l) = pre ++ replaceEscapes l := by
  induction pre with
  | nil => rfl
  | cons c t ih =>
    have hc : c ≠ '=' := fun hc => h (hc ▸ List.mem_cons_self c t)
    have ht : '=' ∉ t := fun hm => h (List.mem_cons_of_mem c hm)
    rw [List.cons_append, replaceEscapes_cons_ne _ hc, ih ht, List.cons_append]

theorem isUpperHex_ne_eq {c : Char} (h : isUpperHex c = true) : c ≠ '=' := by
  intro hc
  rw [hc] at h
  exact absurd h (by decide)

theorem isUpperHex_ne_cr {c : Char} (h : isUpperHex c = true) : c ≠ '\r' := by
  intro hc
  rw [hc] at h
  exact absurd h (by decide)

theorem decodeBody_qp (body : List Char) :
    decodeBody body (some "quoted-printable".data) = decodeQuotedPrintable body := by
  rw [decodeBody, if_neg (by decide), if_neg (by decide), if_pos (by decide)]

/-- C4 (amended), core property: with upper-case hex digits `h1 h2`, the
escape `=h1h2` after a prefix free of `=` decodes to the byte
`16 * h1 + h2`, after soft line breaks have been removed; the rest of the
string is decoded recursively. -/
theorem decodeQuotedPrintable_escape (pre post : List Char) (h1 h2 : Char)
    (hpre : '=' ∉ pre) (hh1 : isUpperHex h1 = true) (hh2 : isUpperHex h2 = true) :
    decodeBody (pre ++ '=' :: h1 :: h2 :: post) (some "quoted-printable".data)
      = pre ++ Char.ofNat (16 * hexVal h1 + hexVal h2)
          :: replaceEscapes (removeSoftBreaks post) := by
  rw [decodeBody_qp, decodeQuotedPrintable,
    removeSoftBreaks_append _ hpre,
    removeSoftBreaks_eq_cons _ (isUpperHex_ne_cr hh1),
    removeSoftBreaks_cons_ne _ (isUpperHex_ne_eq hh1),
    removeSoftBreaks_cons_ne _ (isUpperHex_ne_eq hh2),
    replaceEscapes_append _ hpre, replaceEscapes, if_pos (And.intro hh1 hh2)]

/-- Witness for `decodeQuotedPrintable_escape`: decoding `"ab=3D=\r\nc"` as
quoted-printable removes the soft break and decodes `=3D` to `=`. -/
theorem decodeQuotedPrintable_escape_witness :
    decodeBody "ab=3D=\r\nc".data (some "quoted-printable".data) = "ab=c".data := by
  have h := decodeQuotedPrintable_escape "ab".data "=\r\nc".data '3' 'D'
    (by decide) (by decide) (by decide)
  rw [show "ab=3D=\r\nc".data = "ab".data ++ '=' :: '3' :: 'D' :: "=\r\nc".data by decide]
  rw [h]
  decide

/-- C4 counterexample: the source's escape regex accepts only upper-case hex
digits, so `=3d` — whose `3` and `d` are both hexadecimal digits — is NOT
replaced by the character `=` (code 0x3d); the claim predicts `"="`. -/
theorem qp_lowercase_hex_not_decoded :
    decodeBody "=3d".data (some "quoted-printable".data) = "=3d".data
      ∧ '3' ∈ "0123456789abcdefABCDEF".data
      ∧ 'd' ∈ "0123456789abcdefABCDEF".data
      ∧ "=3d".data ≠ ['='] := by
  refine ⟨by decide, by decide, by decide, by decide⟩

/-- C3 counterexample: with boundary `b`, the middle fragment of this body is
not the preamble, is non-empty after trimming, has a CRLF CRLF separator, and
is not the terminator fragment (the final fragment `"--"` is), yet
`parseMultipartMessage` skips it — because its *content* `x--y` contains two
adjacent hyphens — so the result is the sentinel rather than the fragment's
text `"x--y\r\n"` predicted by the claim. -/
theorem multipart_dashes_fragment_skipped :
    splitOn "--b".data "--b\r\nContent-Type: text/plain\r\n\r\nx--y\r\n--b--".data
      = [[], "\r\nContent-Type: text/plain\r\n\r\nx--y\r\n".data, "--".data]
    ∧ jsTrim "\r\nContent-Type: text/plain\r\n\r\nx--y\r\n".data ≠ []
    ∧ (splitOn "\r\n\r\n".data "\r\nContent-Type: text/plain\r\n\r\nx--y\r\n".data).length = 2
    ∧ parseMultipartMessage "--b\r\nContent-Type: text/plain\r\n\r\nx--y\r\n--b--".data "b".data
        = "No readable content found in the message.".data
    ∧ "No readable content found in the message.".data ≠ "x--y\r\n".data := by
  refine ⟨by decide, by decide, by decide, by decide, by decide⟩

/-- C3 (amended): the fragment loop of `parseMultipartMessage` skips exactly
the fragments that are empty after trimming, contain `--` anywhere (which
covers the terminator and postamble, but also any fragment whose headers or
content contain two adjacent hyphens), or lack a CRLF CRLF separator; every
other fragment — the preamble included — is header-parsed, decoded and
classified (`classifyPart`).  The preamble receives no special treatment. -/
theorem multipart_skip_filter (body boundary : List Char) :
    multipartAccums body boundary
      = ((splitOn ("--".data ++ boundary) body).filter
          (fun p => decide (¬ skipFrag p))).foldl classifyPart ([], []) :=
  foldl_processPart_filter _ _

/-- C5: after the fragment loop, `parseMultipartMessage` returns the
text/plain accumulator if non-empty; else the text/html accumulator with
HTML stripped; else the fixed sentinel string. -/
theorem parseMultipartMessage_selection (body boundary : List Char) :
    ((multipartAccums body boundary).1 ≠ [] ∧
      parseMultipartMessage body boundary = (multipartAccums body boundary).1) ∨
    ((multipartAccums body boundary).1 = [] ∧ (multipartAccums body boundary).2 ≠ [] ∧
      parseMultipartMessage body boundary = stripHtml (multipartAccums body boundary).2) ∨
    ((multipartAccums body boundary).1 = [] ∧ (multipartAccums body boundary).2 = [] ∧
      parseMultipartMessage body boundary
        = "No readable content found in the message.".data) := by
  by_cases h1 : (multipartAccums body boundary).1 = []
  · by_cases h2 : (multipartAccums body boundary).2 = []
    · exact Or.inr (Or.inr ⟨h1, h2, by rw [parseMultipartMessage, if_neg (by simpa using h1),
        if_neg (by simpa using h2)]⟩)
    · exact Or.inr (Or.inl ⟨h1, h2, by rw [parseMultipartMessage, if_neg (by simpa using h1),
        if_pos h2]⟩)
  · exact Or.inl ⟨h1, by rw [parseMultipartMessage, if_pos h1]⟩

/-- C6: a non-skipped fragment whose local content type contains
`text/plain` overwrites the text accumulator with its own decoded content —
the result is independent of the accumulator's previous value (overwrite,
never append, never first-wins) and leaves the html accumulator unchanged;
symmetrically for `text/html` (tested only when the `text/plain` test
failed, since the source uses `else if`). -/
theorem processPart_overwrites (acc : List Char × List Char) (p : List Char)
    (h : ¬ skipFrag p) :
    (jsIncludes (partContentType p) "text/plain".data = true →
      processPart acc p = (partDecoded p, acc.2)) ∧
    (jsIncludes (partContentType p) "text/plain".data = false →
      jsIncludes (partContentType p) "text/html".data = true →
      processPart acc p = (acc.1, partDecoded p)) := by
  constructor
  · intro hp
    rw [processPart_not_skip acc h, classifyPart, if_pos hp]
  · intro hp hh
    rw [processPart_not_skip acc h, classifyPart, if_neg (by simp [hp]), if_pos hh]

/-- Witness for `processPart_overwrites`: a `text/plain` fragment replaces the
previous text accumulator `"OLD"` with its own decoded content. -/
theorem processPart_overwrites_witness :
    processPart ("OLD".data, "H".data) "\r\nContent-Type: text/plain\r\n\r\nNEW\r\n".data
      = ("NEW\r\n".data, "H".data) := by
  have h := (processPart_overwrites ("OLD".data, "H".data)
    "\r\nContent-Type: text/plain\r\n\r\nNEW\r\n".data (by decide)).1 (by decide)
  rw [h]
  decide

/-- C7: `decodeBody` resolves the encoding case-insensitively; when it
resolves to base64 and `atob` rejects the body (invalid characters or
misaligned padding after whitespace removal), the original string is
returned unchanged — never a partial decode.  (Totality — "returns a string
and never throws" — holds by construction of the embedding: `decodeBody` is
a total function; the warning log is outside the pure model.) -/
theorem decodeBody_base64_fallback (body e : List Char)
    (henc : jsToLower e = "base64".data) (hfail : atob body = none) :
    decodeBody body (some e) = body := by
  have he : ¬ e = [] := by
    intro h
    rw [h] at henc
    exact absurd henc (by decide)
  rw [decodeBody, if_neg he, henc, if_pos rfl, decodeBase64, hfail]

/-- Witness for `decodeBody_base64_fallback`: `"%%%"` is not base64 and the
encoding name is matched case-insensitively. -/
theorem decodeBody_base64_fallback_witness :
    jsToLower "BASE64".data = "base64".data ∧ atob "%%%".data = none ∧
      decodeBody "%%%".data (some "BASE64".data) = "%%%".data :=
  ⟨by decide, by decide, decodeBody_base64_fallback _ _ (by decide) (by decide)⟩

/- ## Theorems on `getContentInfo` (claims C1 and C9) -/

theorem toNat_ofNat_valid (n : Nat) (h : n.isValidChar) : (Char.ofNat n).toNat = n := by
  unfold Char.ofNat
  rw [dif_pos h]
  have hlt : n < 2 ^ 32 := by
    rcases h with h | h <;> omega
  simp [Char.ofNatAux, Char.toNat, UInt32.toNat, BitVec.toNat_ofNatLt]

/-- Characters produced by the ASCII lower-caser are never upper-case ASCII
letters. -/
theorem jsToLower_no_upper {l : List Char} {c : Char} (h : c ∈ jsToLower l) :
    ¬ (65 ≤ c.toNat ∧ c.toNat ≤ 90) := by
  rw [jsToLower, List.mem_map] at h
  obtain ⟨x, _, hx⟩ := h
  rw [jsLowerChar] at hx
  by_cases hu : 65 ≤ x.toNat ∧ x.toNat ≤ 90
  · rw [if_pos hu] at hx
    have hv : (x.toNat + 32).isValidChar := by
      rw [Nat.isValidChar]
      omega
    have := toNat_ofNat_valid (x.toNat + 32) hv
    rw [hx] at this
    omega
  · rw [if_neg hu] at hx
    rw [← hx]
    exact hu

theorem jsIncludes_of_leading {l sub : List Char} (h : sub.isPrefixOf l = true) :
    jsIncludes l sub = true := by
  cases l with
  | nil => exact h
  | cons c rest => simp [jsIncludes, h]

theorem jsIncludes_cons_of {c : Char} {l sub : List Char}
    (h : jsIncludes l sub = true) : jsIncludes (c :: l) sub = true := by
  simp [jsIncludes, h]

/-- Everything `boundaryCapture` captures is a non-empty run of boundary
characters. -/
theorem boundaryCapture_spec {after b : List Char} (h : boundaryCapture after = some b) :
    b ≠ [] ∧ ∀ c ∈ b, isBChar c = true := by
  rcases after with _ | ⟨c, rest⟩
  · cases h
  · rw [boundaryCapture.eq_def] at h
    simp only [] at h
    by_cases hq : c = '"'
    · rw [if_pos hq] at h
      rcases rest with _ | ⟨c2, t2⟩
      · cases h
      · simp only [] at h
        by_cases hb : isBChar c2
        · rw [if_pos hb] at h
          injection h with h
          subst h
          refine ⟨by rw [List.takeWhile_cons_of_pos hb]; simp, ?_⟩
          intro x hx
          exact List.mem_takeWhile_imp hx
        · rw [if_neg hb] at h
          cases h
    · rw [if_neg hq] at h
      by_cases hb : isBChar c
      · rw [if_pos hb] at h
        injection h with h
        subst h
        refine ⟨by rw [List.takeWhile_cons_of_pos hb]; simp, ?_⟩
        intro x hx
        exact List.mem_takeWhile_imp hx
      · rw [if_neg hb] at h
        cases h

/-- Anything `findBoundary` returns comes from a case-insensitive
`boundary=` occurrence and is a non-empty token of boundary characters. -/
theorem findBoundary_spec :
    ∀ {cs b : List Char}, findBoundary cs = some b →
      jsIncludes (jsToLower cs) "boundary=".data = true ∧ b ≠ [] ∧
        ∀ c ∈ b, isBChar c = true := by
  intro cs
  induction cs with
  | nil => intro b h; cases h
  | cons c rest ih =>
    intro b h
    rw [findBoundary] at h
    split at h
    · rename_i hpre
      split at h
      · rename_i cap hcap
        injection h with h
        rw [← h]
        exact ⟨jsIncludes_of_leading hpre, boundaryCapture_spec hcap⟩
      · obtain ⟨h1, h2⟩ := ih h
        exact ⟨jsIncludes_cons_of h1, h2⟩
    · obtain ⟨h1, h2⟩ := ih h
      exact ⟨jsIncludes_cons_of h1, h2⟩

/-- C1 counterexample: a `Content-Type` of `text/plain; boundary=abc` is not
multipart, yet `getContentInfo` captures `boundary = "abc"` — the boundary
extraction is unconditional, contrary to the claimed invariant. -/
theorem getContentInfo_boundary_nonMultipart :
    getContentInfo [("Content-Type".data, HVal.one "text/plain; boundary=abc".data)]
        = ⟨"text/plain".data, "7bit".data, some "abc".data⟩
      ∧ jsStartsWith "text/plain".data "multipart/".data = false := by
  refine ⟨by decide, by decide⟩

/-- C1 (amended): `boundary` is `none` unless the (truthy) `Content-Type`
header value contains a case-insensitive `boundary=` parameter — whatever
the content type is; when present, the boundary is a non-empty token free of
quotes, semicolons and whitespace. -/
theorem getContentInfo_boundary_spec (headers : List (List Char × HVal))
    (b : List Char) (h : (getContentInfo headers).boundary = some b) :
    ∃ v, lookupH headers "Content-Type".data = some v ∧ v.truthy = true ∧
      jsIncludes (jsToLower v.first) "boundary=".data = true ∧ b ≠ [] ∧
      ∀ c ∈ b, isBChar c = true := by
  have h2 : (ctPair (lookupH headers "Content-Type".data)).2 = some b := h
  rcases hl : lookupH headers "Content-Type".data with _ | v
  · rw [hl] at h2
    cases h2
  · rw [hl] at h2
    cases hb : v.truthy with
    | false => simp [ctPair, hb] at h2
    | true =>
      simp only [ctPair, hb, if_true] at h2
      obtain ⟨h1, hb2, h3⟩ := findBoundary_spec h2
      exact ⟨v, rfl, hb, h1, hb2, h3⟩

/-- Witness for `getContentInfo_boundary_spec`, at the counterexample's
input. -/
theorem getContentInfo_boundary_spec_witness :
    ∃ v, lookupH [("Content-Type".data, HVal.one "text/plain; boundary=abc".data)]
        "Content-Type".data = some v ∧ v.truthy = true ∧
      jsIncludes (jsToLower v.first) "boundary=".data = true ∧ "abc".data ≠ [] ∧
      ∀ c ∈ "abc".data, isBChar c = true :=
  getContentInfo_boundary_spec
    [("Content-Type".data, HVal.one "text/plain; boundary=abc".data)]
    "abc".data (by decide)

/-- Is the `Content-Type` header absent, falsy, or rejected by the
`/^([^;]+)/` match (empty value or value starting with `;`)? -/
def ctUnparseable (headers : List (List Char × HVal)) : Prop :=
  ∀ v, lookupH headers "Content-Type".data = some v →
    v.truthy = false ∨ ctPrefix v.first = none

/-- C9 counterexample: a `Content-Type` value of `" ;x"` passes the
`/^([^;]+)/` match with group `" "`, which trims to the empty string — so
`contentType` is empty, contrary to the claimed non-emptiness. -/
theorem getContentInfo_contentType_empty :
    (getContentInfo [("Content-Type".data, HVal.one " ;x".data)]).contentType = [] := by
  decide

/-- C9 (amended): `contentType` never contains an upper-case ASCII letter,
and equals `text/plain` whenever the `Content-Type` header is absent, falsy,
or fails the `/^([^;]+)/` match; it can however be empty (when the part
before the first `;` trims to nothing). -/
theorem getContentInfo_contentType_spec (headers : List (List Char × HVal)) :
    (∀ c ∈ (getContentInfo headers).contentType, ¬ (65 ≤ c.toNat ∧ c.toNat ≤ 90)) ∧
    (ctUnparseable headers →
      (getContentInfo headers).contentType = "text/plain".data) := by
  constructor
  · intro c hc
    have hc2 : c ∈ (ctPair (lookupH headers "Content-Type".data)).1 := hc
    have htp : ∀ x ∈ "text/plain".data, ¬ (65 ≤ x.toNat ∧ x.toNat ≤ 90) := by decide
    rcases hl : lookupH headers "Content-Type".data with _ | v
    · rw [hl] at hc2
      exact htp c hc2
    · rw [hl] at hc2
      cases hb : v.truthy with
      | false =>
        simp only [ctPair, hb, Bool.false_eq_true, if_false] at hc2
        exact htp c hc2
      | true =>
        rcases hp : ctPrefix v.first with _ | p
        · simp only [ctPair, hb, if_true, hp] at hc2
          exact htp c hc2
        · simp only [ctPair, hb, if_true, hp] at hc2
          exact jsToLower_no_upper hc2
  · intro hu
    show (ctPair (lookupH headers "Content-Type".data)).1 = "text/plain".data
    rcases hl : lookupH headers "Content-Type".data with _ | v
    · rfl
    · have hv := hu v hl
      cases hb : v.truthy with
      | false => simp [ctPair, hb]
      | true =>
        rcases hv with hv | hv
        · rw [hb] at hv
          cases hv
        · simp [ctPair, hb, hv]

/-- Witness for `getContentInfo_contentType_spec`: no upper-case letters on
an upper-case input, and the default on an empty header map. -/
theorem getContentInfo_contentType_spec_witness :
    (∀ c ∈ (getContentInfo [("Content-Type".data, HVal.one "TEXT/HTML; a=b".data)]).contentType,
      ¬ (65 ≤ c.toNat ∧ c.toNat ≤ 90)) ∧
    (getContentInfo []).contentType = "text/plain".data :=
  ⟨(getContentInfo_contentType_spec
      [("Content-Type".data, HVal.one "TEXT/HTML; a=b".data)]).1,
    (getContentInfo_contentType_spec []).2 (fun v h => by cases h)⟩

/- ## Theorems on the folding-aware header parser (claim C8) -/

/-- Splitting on CRLF peels off a CR-free line. -/
theorem splitOn_crlf {a : List Char} (b : List Char) (h : '\r' ∉ a) :
    splitOn "\r\n".data (a ++ '\r' :: '\n' :: b) = a :: splitOn "\r\n".data b := by
  induction a with
  | nil =>
    rw [List.nil_append, splitOn_pos (by decide) (by simp [List.isPrefixOf])]
    rfl
  | cons c t ih =>
    have hc : c ≠ '\r' := fun hc => h (hc ▸ List.mem_cons_self c t)
    have ht : '\r' ∉ t := fun hm => h (List.mem_cons_of_mem c hm)
    rw [List.cons_append, splitOn_neg (by
      intro hcon
      have := hcon.2
      simp [List.isPrefixOf] at this
      exact hc this.1.symm), ih ht]
    rfl

/-- `takeWhile` runs through a block of satisfying characters up to a
stopper. -/
theorem takeWhile_append_stop {p : Char → Bool} {l : List Char} {c : Char}
    (rest : List Char) (hl : ∀ x ∈ l, p x = true) (hc : p c = false) :
    (l ++ c :: rest).takeWhile p = l := by
  induction l with
  | nil => simp [List.takeWhile_cons, hc]
  | cons a t ih =>
    have ha : p a = true := hl a (List.mem_cons_self a t)
    rw [List.cons_append, List.takeWhile_cons_of_pos ha,
      ih (fun x hx => hl x (List.mem_cons_of_mem a hx))]

/-- The header-line regex on a well-formed `name:value` line. -/
theorem parseHeaderLine_eq (c0 : Char) (nt v0 : List Char)
    (hcolon : ':' ∉ c0 :: nt) :
    parseHeaderLine (c0 :: (nt ++ ':' :: v0))
      = some (c0 :: nt, (v0.dropWhile jsWs).takeWhile (fun c => ¬ jsLineTerm c)) := by
  have he : c0 :: (nt ++ ':' :: v0) = (c0 :: nt) ++ ':' :: v0 := rfl
  have hname : ((c0 :: nt) ++ ':' :: v0).takeWhile (fun c => ¬ c = ':') = c0 :: nt := by
    refine takeWhile_append_stop v0 ?_ (by simp)
    intro x hx
    simp only [decide_eq_true_eq]
    intro hx2
    exact hcolon (hx2 ▸ hx)
  rw [parseHeaderLine, he]
  simp only [hname]
  rw [List.drop_left]
  simp [List.cons_ne_nil]

/-- C8 counterexample: a header line with an empty first-line value followed
by a folded continuation yields the value `" Hello"`, which carries a leading
space — the reassembled value is NOT trimmed, contrary to the claim (and the
separate pieces are joined by exactly the one space the parser inserts only
between the first-line value and each continuation). -/
theorem parseBlock_not_trimmed :
    parseBlock "Subject:\r\n Hello".data = [("Subject".data, " Hello".data)]
      ∧ " Hello".data ≠ jsTrim " Hello".data := by
  refine ⟨by decide, by decide⟩

/-- C8 (amended): on a header block consisting of one `name:value` line and
one whitespace-folded continuation line, `parseBlock` produces exactly one
entry for the header; its value is the first line's post-colon remainder with
leading whitespace stripped (and trailing whitespace kept), followed by a
single space and the trimmed continuation line — with no final trim of the
assembled value.  In particular `"Subject: Hello\r\n World\r\n"` parses to
`Subject ↦ "Hello World"`. -/
theorem parseBlock_folded (s : List Char) (c0 : Char) (nt v0 v1 : List Char)
    (hs : s = (c0 :: nt) ++ ':' :: v0 ++ '\r' :: '\n' :: ' ' :: v1 ++ ['\r', '\n'])
    (hhead : jsWs c0 = false)
    (hcolon : ':' ∉ c0 :: nt)
    (hnamecr : '\r' ∉ c0 :: nt)
    (hv0 : ∀ c ∈ v0, jsLineTerm c = false)
    (hv1cr : '\r' ∉ v1) :
    parseBlock s = [(c0 :: nt, v0.dropWhile jsWs ++ ' ' :: jsTrim v1)] := by
  subst hs
  have hline1 : '\r' ∉ (c0 :: nt) ++ ':' :: v0 := by
    intro hm
    rcases List.mem_append.mp hm with hm | hm
    · exact hnamecr hm
    · rcases List.mem_cons.mp hm with hm | hm
      · cases hm
      · have := hv0 _ hm
        simp [jsLineTerm] at this
  have hline2 : '\r' ∉ ' ' :: v1 := by
    intro hm
    rcases List.mem_cons.mp hm with hm | hm
    · cases hm
    · exact hv1cr hm
  have hsplit : splitOn "\r\n".data
      ((c0 :: nt) ++ ':' :: v0 ++ '\r' :: '\n' :: ' ' :: v1 ++ ['\r', '\n'])
      = [(c0 :: nt) ++ ':' :: v0, ' ' :: v1, []] := by
    have e1 : (c0 :: nt) ++ ':' :: v0 ++ '\r' :: '\n' :: ' ' :: v1 ++ ['\r', '\n']
        = ((c0 :: nt) ++ ':' :: v0) ++ '\r' :: '\n' :: ((' ' :: v1) ++ '\r' :: '\n' :: []) := by
      simp
    rw [e1, splitOn_crlf _ hline1, splitOn_crlf _ hline2, splitOn_nil]
  have hvalue : (v0.dropWhile jsWs).takeWhile (fun c => ¬ jsLineTerm c)
      = v0.dropWhile jsWs := by
    apply List.takeWhile_eq_self_iff.mpr
    intro x hx
    have := hv0 x ((List.dropWhile_sublist jsWs).mem hx)
    simp [this]
  have htrim : jsTrim (' ' :: v1) = jsTrim v1 := by
    rw [jsTrim, jsTrim, List.dropWhile_cons_of_pos (by decide)]
  rw [parseBlock, hsplit, List.cons_append, parseBlockGo.eq_def]
  simp only []
  rw [if_neg (by simp [hhead]), parseHeaderLine_eq c0 nt v0 hcolon, hvalue]
  simp only [flushCur]
  rw [parseBlockGo.eq_def]
  simp only []
  rw [if_pos (by decide), htrim, parseBlockGo.eq_def]
  simp only [flushCur, upsert]
  rw [parseBlockGo.eq_def]
  simp [flushCur, upsert]

/-- Witness for `parseBlock_folded`: the spec's own example,
`"Subject: Hello\r\n World\r\n"` ↦ `{Subject: "Hello World"}`. -/
theorem parseBlock_folded_witness :
    parseBlock "Subject: Hello\r\n World\r\n".data
      = [("Subject".data, "Hello World".data)] := by
  have h := parseBlock_folded "Subject: Hello\r\n World\r\n".data 'S' "ubject".data
    " Hello".data "World".data (by decide) (by decide) (by decide) (by decide)
    (by decide) (by decide)
  rw [h]
  decide

/- ## Raw path vs structured path (claim C2) -/

theorem lookupH_lift (hs : List (List Char × List Char)) (k : List Char) :
    lookupH (liftHeaders hs) k = Option.map HVal.one (lookupS hs k) := by
  induction hs with
  | nil => rfl
  | cons p t ih =>
    rw [liftHeaders, List.map_cons, lookupH, lookupS]
    by_cases hk : p.1 = k
    · rw [if_pos hk, if_pos hk]
      rfl
    · rw [if_neg hk, if_neg hk]
      exact ih

theorem jsLowerChar_not_upper (c : Char) :
    ¬ (65 ≤ (jsLowerChar c).toNat ∧ (jsLowerChar c).toNat ≤ 90) := by
  rw [jsLowerChar]
  by_cases h : 65 ≤ c.toNat ∧ c.toNat ≤ 90
  · rw [if_pos h]
    have hv : (c.toNat + 32).isValidChar := by
      rw [Nat.isValidChar]
      omega
    rw [toNat_ofNat_valid _ hv]
    omega
  · rw [if_neg h]
    exact h

theorem jsLowerChar_idem (c : Char) : jsLowerChar (jsLowerChar c) = jsLowerChar c := by
  conv_lhs => rw [jsLowerChar]
  rw [if_neg (jsLowerChar_not_upper c)]

theorem jsToLower_idem (l : List Char) : jsToLower (jsToLower l) = jsToLower l := by
  rw [jsToLower, jsToLower, List.map_map]
  exact List.map_congr_left (fun c _ => jsLowerChar_idem c)

theorem jsToLower_eq_nil {l : List Char} : jsToLower l = [] ↔ l = [] := by
  rw [jsToLower]
  exact List.map_eq_nil_iff

/-- `decodeBody` lower-cases its encoding argument itself, so pre-lower-casing
does not change the result. -/
theorem decodeBody_toLower (b e : List Char) (he : e ≠ []) :
    decodeBody b (some (jsToLower e)) = decodeBody b (some e) := by
  rw [decodeBody, decodeBody,
    if_neg (fun h => he (jsToLower_eq_nil.mp h)), if_neg he, jsToLower_idem]

/-- The normalized content type the structured path computes from a raw
`Content-Type` value. -/
def normCT (v : List Char) : List Char :=
  match ctPrefix v with
  | some p => jsToLower (jsTrim p)
  | none => "text/plain".data

/-- Is the `Content-Transfer-Encoding` header absent or empty? -/
def cteAbsent (hdrs : List (List Char × List Char)) : Bool :=
  match lookupS hdrs "Content-Transfer-Encoding".data with
  | none => true
  | some e => e == []

/-- The alignment conditions under which the raw path's unnormalized
dispatch coincides with the structured path's normalized one: the raw
`Content-Type` value must contain `multipart/` exactly when its
normalization starts with it, its lower-casing must contain `html` exactly
when the normalization does, and the `Content-Transfer-Encoding` value must
carry no surrounding whitespace; when the `Content-Type` header is absent or
empty the raw path ignores the `Content-Transfer-Encoding` header entirely,
so that header must be absent or empty too. -/
def pathsAligned (hdrs : List (List Char × List Char)) : Bool :=
  match lookupS hdrs "Content-Type".data with
  | none => cteAbsent hdrs
  | some v =>
    if v = [] then cteAbsent hdrs
    else
      (jsIncludes v "multipart/".data == jsStartsWith (normCT v) "multipart/".data) &&
      (jsIncludes (jsToLower v) "html".data == jsIncludes (normCT v) "html".data) &&
      (match lookupS hdrs "Content-Transfer-Encoding".data with
        | none => true
        | some e => jsTrim e == e)

/-- C2 counterexample: on a raw message whose `Content-Type` is
`MULTIPART/MIXED; boundary=b`, the raw path performs the case-sensitive test
`includes("multipart/")` on the unnormalized header value, misses, and emits
the body undecoded — while the structured path applied to the header map
parsed from the same header block and the same extracted body normalizes the
content type and dispatches to the multipart parser, returning `"Hello\r\n"`.
The two paths do not produce the same final string. -/
theorem rawPath_structured_divergence :
    splitOn "\r\n\r\n".data
        "Content-Type: MULTIPART/MIXED; boundary=b\r\n\r\n--b\r\nContent-Type: text/plain\r\n\r\nHello\r\n--b--".data
      = ["Content-Type: MULTIPART/MIXED; boundary=b".data,
          "--b\r\nContent-Type: text/plain".data, "Hello\r\n--b--".data]
    ∧ rawRender
        "Content-Type: MULTIPART/MIXED; boundary=b\r\n\r\n--b\r\nContent-Type: text/plain\r\n\r\nHello\r\n--b--".data
      = some "--b\r\nContent-Type: text/plain\r\n\r\nHello\r\n--b--".data
    ∧ structuredRender
        (liftHeaders (parseBlock "Content-Type: MULTIPART/MIXED; boundary=b".data))
        "--b\r\nContent-Type: text/plain\r\n\r\nHello\r\n--b--".data
      = "Hello\r\n".data
    ∧ ("--b\r\nContent-Type: text/plain\r\n\r\nHello\r\n--b--".data : List Char)
      ≠ "Hello\r\n".data := by
  refine ⟨by decide, by decide, by decide, by decide⟩

theorem ctPair_one {v : List Char} (hv : v ≠ []) :
    ctPair (some (HVal.one v)) = (normCT v, findBoundary v) := by
  rw [ctPair, HVal.truthy, if_pos (by simpa using hv)]
  rfl

/-- The structured path, unfolded to the raw path's content-info triple
shape. -/
theorem structuredRender_view (hs : List (List Char × List Char)) (body : List Char) :
    structuredRender (liftHeaders hs) body =
      (match (ctPair (Option.map HVal.one (lookupS hs "Content-Type".data))).2 with
        | some b =>
          if jsStartsWith (ctPair (Option.map HVal.one (lookupS hs "Content-Type".data))).1
              "multipart/".data then
            parseMultipartMessage body b
          else
            let decodedBody := decodeBody body
              (some (cteValue (Option.map HVal.one (lookupS hs "Content-Transfer-Encoding".data))))
            if jsIncludes (ctPair (Option.map HVal.one (lookupS hs "Content-Type".data))).1
                "html".data then stripHtml decodedBody else decodedBody
        | none =>
          let decodedBody := decodeBody body
            (some (cteValue (Option.map HVal.one (lookupS hs "Content-Transfer-Encoding".data))))
          if jsIncludes (ctPair (Option.map HVal.one (lookupS hs "Content-Type".data))).1
              "html".data then stripHtml decodedBody else decodedBody) := by
  rw [structuredRender]
  simp only [getContentInfo, lookupH_lift]

/-- C2 (amended): the raw path does NOT normalize the `Content-Type` value —
it dispatches to multipart on `includes("multipart/")` (case-sensitive, over
the full raw value) rather than on a `startsWith` over the truncated,
trimmed, lower-cased type, passes the raw (untrimmed) transfer-encoding value
to the decoder, and lower-cases the raw value only for the `html` substring
test; when the `Content-Type` header is absent or empty it also ignores the
`Content-Transfer-Encoding` header, which the structured path reads
independently.  Under the `pathsAligned` conditions — the substring and
prefix dispatch tests agree, the encoding value is trim-invariant, and the
encoding header is absent when the content type is — the raw path produces
exactly the structured path's result on the parsed header map and extracted
body. -/
theorem rawRender_refines_structured (raw hdr : List Char) (rest : List (List Char))
    (hsplit : splitOn "\r\n\r\n".data raw = hdr :: rest)
    (hne : rest ≠ [])
    (halign : pathsAligned (parseBlock hdr) = true) :
    rawRender raw = some (structuredRender (liftHeaders (parseBlock hdr))
      (List.intercalate "\r\n\r\n".data rest)) := by
  rcases rest with _ | ⟨r, rs⟩
  · exact absurd rfl hne
  rw [rawRender, hsplit]
  simp only []
  congr 1
  rw [structuredRender_view]
  rw [pathsAligned] at halign
  rcases hct : lookupS (parseBlock hdr) "Content-Type".data with _ | v
  all_goals rw [hct] at halign
  · -- no Content-Type header: both sides use all defaults
    simp only [] at halign
    have hcte2 : ∀ e, lookupS (parseBlock hdr) "Content-Transfer-Encoding".data = some e →
        e = [] := by
      intro e he
      rw [cteAbsent, he] at halign
      simpa using halign
    have henc : cteValue (Option.map HVal.one
        (lookupS (parseBlock hdr) "Content-Transfer-Encoding".data)) = "7bit".data := by
      rcases hcte : lookupS (parseBlock hdr) "Content-Transfer-Encoding".data with _ | e
      · rfl
      · have hee := hcte2 e hcte
        subst hee
        rfl
    have hraw : rawContentInfo (parseBlock hdr)
        = ("text/plain".data, "7bit".data, (none : Option (List Char))) := by
      rw [rawContentInfo.eq_def, hct]
    have hstruct : ctPair (Option.map HVal.one (none : Option (List Char)))
        = ("text/plain".data, (none : Option (List Char))) := rfl
    rw [hraw, hstruct, henc]
    simp only []
    rw [if_neg (by decide), if_neg (by decide)]
  · simp only [] at halign
    by_cases hv : v = []
    · -- empty Content-Type value: falsy on both paths
      rw [if_pos hv] at halign
      have hcte2 : ∀ e, lookupS (parseBlock hdr) "Content-Transfer-Encoding".data = some e →
          e = [] := by
        intro e he
        rw [cteAbsent, he] at halign
        simpa using halign
      have henc : cteValue (Option.map HVal.one
          (lookupS (parseBlock hdr) "Content-Transfer-Encoding".data)) = "7bit".data := by
        rcases hcte : lookupS (parseBlock hdr) "Content-Transfer-Encoding".data with _ | e
        · rfl
        · have hee := hcte2 e hcte
          subst hee
          rfl
      subst hv
      have hraw : rawContentInfo (parseBlock hdr)
          = ("text/plain".data, "7bit".data, (none : Option (List Char))) := by
        rw [rawContentInfo.eq_def, hct]
        simp
      have hstruct : ctPair (Option.map HVal.one (some ([] : List Char)))
          = ("text/plain".data, (none : Option (List Char))) := rfl
      rw [hraw, hstruct, henc]
      simp only []
      rw [if_neg (by decide), if_neg (by decide)]
    · -- a real Content-Type value
      rw [if_neg hv] at halign
      simp only [Bool.and_eq_true, beq_iff_eq] at halign
      obtain ⟨⟨hmp, hhtml⟩, htrim⟩ := halign
      have htrim2 : ∀ e, lookupS (parseBlock hdr) "Content-Transfer-Encoding".data = some e →
          jsTrim e = e := by
        intro e he
        rw [he] at htrim
        simpa using htrim
      clear htrim
      have hdecode : decodeBody (List.intercalate "\r\n\r\n".data (r :: rs))
          (some (cteValue (Option.map HVal.one
            (lookupS (parseBlock hdr) "Content-Transfer-Encoding".data))))
          = decodeBody (List.intercalate "\r\n\r\n".data (r :: rs))
            (some (orDefault (lookupS (parseBlock hdr) "Content-Transfer-Encoding".data)
              "7bit".data)) := by
        rcases hcte : lookupS (parseBlock hdr) "Content-Transfer-Encoding".data with _ | e
        · rfl
        · have he2 := htrim2 e hcte
          by_cases he : e = []
          · subst he
            rfl
          · rw [Option.map_some', cteValue, HVal.truthy, if_pos (by simpa using he),
              HVal.first, orDefault, if_neg he, he2, decodeBody_toLower _ _ he]
      have hraw : rawContentInfo (parseBlock hdr)
          = (v, orDefault (lookupS (parseBlock hdr) "Content-Transfer-Encoding".data)
              "7bit".data, findBoundary v) := by
        rw [rawContentInfo.eq_def, hct]
        simp only []
        rw [if_pos hv]
      have hstruct : ctPair (Option.map HVal.one (some v))
          = (normCT v, findBoundary v) := by
        rw [Option.map_some']
        exact ctPair_one hv
      rw [hraw, hstruct]
      simp only []
      rcases hb : findBoundary v with _ | b
      all_goals simp only []
      · -- no boundary captured: both take the single-part branch
        rw [hdecode, hhtml]
      · -- boundary present: the dispatch tests agree by hypothesis
        rw [← hmp]
        cases hmpv : jsIncludes v "multipart/".data
        · rw [if_neg (show ¬((false : Bool) = true) by simp),
            if_neg (show ¬((false : Bool) = true) by simp), hdecode, hhtml]
        · rw [if_pos (show (true : Bool) = true from rfl),
            if_pos (show (true : Bool) = true from rfl)]

/-- Witness for `rawRender_refines_structured`: on a well-formed lower-case
multipart message the raw path equals the structured path applied to the
parsed headers and extracted body. -/
theorem rawRender_refines_structured_witness :
    rawRender "Content-Type: multipart/mixed; boundary=b\r\n\r\n--b\r\nContent-Type: text/plain\r\n\r\nHello\r\n--b--".data
      = some (structuredRender
          (liftHeaders (parseBlock "Content-Type: multipart/mixed; boundary=b".data))
          (List.intercalate "\r\n\r\n".data
            ["--b\r\nContent-Type: text/plain".data, "Hello\r\n--b--".data])) :=
  rawRender_refines_structured _ _ _ (by decide) (by decide) (by decide)

/- ## The base64 round-trip law (claim C10) -/

/-- UTF-8 encoding of one character (the standard one- to four-byte forms);
this is the byte sequence `TextEncoder` produces for the character. -/
def utf8EncodeChar (c : Char) : List Nat :=
  if c.toNat < 0x80 then [c.toNat]
  else if c.toNat < 0x800 then [0xC0 + c.toNat / 64, 0x80 + c.toNat % 64]
  else if c.toNat < 0x10000 then
    [0xE0 + c.toNat / 4096, 0x80 + c.toNat / 64 % 64, 0x80 + c.toNat % 64]
  else
    [0xF0 + c.toNat / 262144, 0x80 + c.toNat / 4096 % 64,
      0x80 + c.toNat / 64 % 64, 0x80 + c.toNat % 64]

/-- The UTF-8 bytes of a string. -/
def utf8Encode : List Char → List Nat
  | [] => []
  | c :: rest => utf8EncodeChar c ++ utf8Encode rest

/-- A six-bit value → base64 alphabet character. -/
def sixToChar (n : Nat) : Char :=
  if n < 26 then Char.ofNat (65 + n)
  else if n < 52 then Char.ofNat (97 + (n - 26))
  else if n < 62 then Char.ofNat (48 + (n - 52))
  else if n = 62 then '+'
  else '/'

/-- Standard base64 encoding of a byte sequence, with `=` padding. -/
def b64EncodeBytes : List Nat → List Char
  | b0 :: b1 :: b2 :: rest =>
    sixToChar (b0 / 4) :: sixToChar (b0 % 4 * 16 + b1 / 16) ::
    sixToChar (b1 % 16 * 4 + b2 / 64) :: sixToChar (b2 % 64) :: b64EncodeBytes rest
  | [b0, b1] =>
    [sixToChar (b0 / 4), sixToChar (b0 % 4 * 16 + b1 / 16), sixToChar (b1 % 16 * 4), '=']
  | [b0] => [sixToChar (b0 / 4), sixToChar (b0 % 4 * 16), '=', '=']
  | [] => []

/-- Modelled from the spec: `encodeBase64` does not occur in the source; the
round-trip law of the spec defines it as "the standard base64 encoding of the
UTF-8 bytes of s", which this is. -/
def encodeBase64 (s : List Char) : List Char :=
  b64EncodeBytes (utf8Encode s)

/-- The same encoding without the padding characters — the form `atob`'s
padding-stripping step recovers. -/
def b64NoPad : List Nat → List Char
  | b0 :: b1 :: b2 :: rest =>
    sixToChar (b0 / 4) :: sixToChar (b0 % 4 * 16 + b1 / 16) ::
    sixToChar (b1 % 16 * 4 + b2 / 64) :: sixToChar (b2 % 64) :: b64NoPad rest
  | [b0, b1] =>
    [sixToChar (b0 / 4), sixToChar (b0 % 4 * 16 + b1 / 16), sixToChar (b1 % 16 * 4)]
  | [b0] => [sixToChar (b0 / 4), sixToChar (b0 % 4 * 16)]
  | [] => []

theorem charToSix_sixToChar : ∀ n, n < 64 → charToSix (sixToChar n) = some n := by
  decide

theorem sixToChar_not_ws : ∀ n, n < 64 → asciiWs (sixToChar n) = false := by
  decide

theorem sixToChar_ne_pad : ∀ n, n < 64 → sixToChar n ≠ '=' := by
  decide

theorem b64_no_ws : ∀ (bs : List Nat), (∀ b ∈ bs, b < 256) →
    ∀ c ∈ b64EncodeBytes bs, asciiWs c = false
  | [], _, c, hc => by simp [b64EncodeBytes] at hc
  | [b0], h, c, hc => by
    have hb0 : b0 < 256 := h b0 (by simp)
    simp only [b64EncodeBytes, List.mem_cons, List.not_mem_nil, or_false] at hc
    rcases hc with rfl | rfl | rfl | rfl
    · exact sixToChar_not_ws _ (by omega)
    · exact sixToChar_not_ws _ (by omega)
    · decide
    · decide
  | [b0, b1], h, c, hc => by
    have hb0 : b0 < 256 := h b0 (by simp)
    have hb1 : b1 < 256 := h b1 (by simp)
    simp only [b64EncodeBytes, List.mem_cons, List.not_mem_nil, or_false] at hc
    rcases hc with rfl | rfl | rfl | rfl
    · exact sixToChar_not_ws _ (by omega)
    · exact sixToChar_not_ws _ (by omega)
    · exact sixToChar_not_ws _ (by omega)
    · decide
  | b0 :: b1 :: b2 :: rest, h, c, hc => by
    have hb0 : b0 < 256 := h b0 (by simp)
    have hb1 : b1 < 256 := h b1 (by simp)
    have hb2 : b2 < 256 := h b2 (by simp)
    simp only [b64EncodeBytes, List.mem_cons] at hc
    rcases hc with rfl | rfl | rfl | rfl | hc
    · exact sixToChar_not_ws _ (by omega)
    · exact sixToChar_not_ws _ (by omega)
    · exact sixToChar_not_ws _ (by omega)
    · exact sixToChar_not_ws _ (by omega)
    · exact b64_no_ws rest (fun b hb => h b (by simp [hb])) c hc

theorem b64_len : ∀ (bs : List Nat), (b64EncodeBytes bs).length % 4 = 0
  | [] => by simp [b64EncodeBytes]
  | [b0] => by simp [b64EncodeBytes]
  | [b0, b1] => by simp [b64EncodeBytes]
  | b0 :: b1 :: b2 :: rest => by
    have ih := b64_len rest
    simp only [b64EncodeBytes, List.length_cons]
    omega

theorem b64_len_ge : ∀ (bs : List Nat), bs ≠ [] → 4 ≤ (b64EncodeBytes bs).length
  | [], h => absurd rfl h
  | [b0], _ => by simp [b64EncodeBytes]
  | [b0, b1], _ => by simp [b64EncodeBytes]
  | b0 :: b1 :: b2 :: rest, _ => by simp [b64EncodeBytes]

theorem dropLast_append_ne {l2 : List Char} (l1 : List Char) (h : l2 ≠ []) :
    (l1 ++ l2).dropLast = l1 ++ l2.dropLast := by
  rw [List.dropLast_append, if_neg (by simp [h])]

theorem stripPadding_append {ys : List Char} (xs : List Char) (h : 2 ≤ ys.length) :
    stripPadding (xs ++ ys) = xs ++ stripPadding ys := by
  have hne : ys ≠ [] := by
    intro h0
    subst h0
    simp at h
  have hdne : ys.dropLast ≠ [] := by
    intro h0
    have := congrArg List.length h0
    rw [List.length_dropLast] at this
    simp at this
    omega
  rw [stripPadding, stripPadding, List.getLast?_append_of_ne_nil _ hne]
  by_cases h1 : ys.getLast? = some '='
  · rw [if_pos h1, if_pos h1, dropLast_append_ne _ hne,
      List.getLast?_append_of_ne_nil _ hdne]
    by_cases h2 : ys.dropLast.getLast? = some '='
    · rw [if_pos h2, if_pos h2, dropLast_append_ne _ hdne]
    · rw [if_neg h2, if_neg h2]
  · rw [if_neg h1, if_neg h1]

theorem stripPadding_pad2 (a b : Char) : stripPadding [a, b, '=', '='] = [a, b] := by
  have h1 : [a, b, '=', '='].getLast? = some '=' := rfl
  have h2 : [a, b, '=', '='].dropLast = [a, b, '='] := rfl
  have h3 : [a, b, '='].getLast? = some '=' := rfl
  rw [stripPadding, h1, h2, h3, if_pos rfl, if_pos rfl]
  rfl

theorem stripPadding_pad1 (a b c : Char) (h : c ≠ '=') :
    stripPadding [a, b, c, '='] = [a, b, c] := by
  have h1 : [a, b, c, '='].getLast? = some '=' := rfl
  have h2 : [a, b, c, '='].dropLast = [a, b, c] := rfl
  have h3 : [a, b, c].getLast? = some c := rfl
  rw [stripPadding, h1, h2, h3, if_pos rfl, if_neg (by simp [h])]

theorem stripPadding_nopad (a b c d : Char) (h : d ≠ '=') :
    stripPadding [a, b, c, d] = [a, b, c, d] := by
  have h1 : [a, b, c, d].getLast? = some d := rfl
  rw [stripPadding, h1, if_neg (by simp [h])]

theorem strip_b64 : ∀ (bs : List Nat), (∀ b ∈ bs, b < 256) →
    stripPadding (b64EncodeBytes bs) = b64NoPad bs
  | [], _ => rfl
  | [b0], h => by
    rw [b64EncodeBytes, stripPadding_pad2]
    rfl
  | [b0, b1], h => by
    have hb1 : b1 < 256 := h b1 (by simp)
    rw [b64EncodeBytes, stripPadding_pad1 _ _ _ (sixToChar_ne_pad _ (by omega))]
    rfl
  | b0 :: b1 :: b2 :: rest, h => by
    have hb2 : b2 < 256 := h b2 (by simp)
    by_cases hre : rest = []
    · subst hre
      rw [b64EncodeBytes, b64EncodeBytes,
        stripPadding_nopad _ _ _ _ (sixToChar_ne_pad _ (by omega))]
      rfl
    · have hlen := b64_len_ge rest hre
      rw [b64EncodeBytes,
        show sixToChar (b0 / 4) :: sixToChar (b0 % 4 * 16 + b1 / 16) ::
          sixToChar (b1 % 16 * 4 + b2 / 64) :: sixToChar (b2 % 64) :: b64EncodeBytes rest
          = [sixToChar (b0 / 4), sixToChar (b0 % 4 * 16 + b1 / 16),
              sixToChar (b1 % 16 * 4 + b2 / 64), sixToChar (b2 % 64)] ++ b64EncodeBytes rest
          from rfl,
        stripPadding_append _ (by omega),
        strip_b64 rest (fun b hb => h b (by simp [hb]))]
      rfl

theorem b64NoPad_len : ∀ (bs : List Nat), (b64NoPad bs).length % 4 ≠ 1
  | [] => by simp [b64NoPad]
  | [b0] => by simp [b64NoPad]
  | [b0, b1] => by simp [b64NoPad]
  | b0 :: b1 :: b2 :: rest => by
    have ih := b64NoPad_len rest
    simp only [b64NoPad, List.length_cons]
    omega

theorem decode64_noPad : ∀ (bs : List Nat), (∀ b ∈ bs, b < 256) →
    decode64 (b64NoPad bs) = some bs
  | [], _ => rfl
  | [b0], h => by
    have hb0 : b0 < 256 := h b0 (by simp)
    rw [b64NoPad, decode64, charToSix_sixToChar _ (by omega),
      charToSix_sixToChar _ (by omega)]
    simp only [Option.bind_eq_bind, Option.some_bind, Option.pure_def,
      Option.some_inj, List.cons.injEq, and_true]
    omega
  | [b0, b1], h => by
    have hb0 : b0 < 256 := h b0 (by simp)
    have hb1 : b1 < 256 := h b1 (by simp)
    rw [b64NoPad, decode64, charToSix_sixToChar _ (by omega),
      charToSix_sixToChar _ (by omega), charToSix_sixToChar _ (by omega)]
    simp only [Option.bind_eq_bind, Option.some_bind, Option.pure_def,
      Option.some_inj, List.cons.injEq, and_true]
    omega
  | b0 :: b1 :: b2 :: rest, h => by
    have hb0 : b0 < 256 := h b0 (by simp)
    have hb1 : b1 < 256 := h b1 (by simp)
    have hb2 : b2 < 256 := h b2 (by simp)
    have ih := decode64_noPad rest (fun b hb => h b (by simp [hb]))
    rw [b64NoPad, decode64, charToSix_sixToChar _ (by omega),
      charToSix_sixToChar _ (by omega), charToSix_sixToChar _ (by omega),
      charToSix_sixToChar _ (by omega), ih]
    simp only [Option.bind_eq_bind, Option.some_bind, Option.pure_def,
      Option.some_inj, List.cons.injEq, eq_self_iff_true, and_true]
    omega

theorem atob_b64 (bs : List Nat) (h : ∀ b ∈ bs, b < 256) :
    atob (b64EncodeBytes bs) = some bs := by
  have hf : List.filter (fun c => ¬ asciiWs c) (b64EncodeBytes bs) = b64EncodeBytes bs := by
    rw [List.filter_eq_self]
    intro c hc
    simp [b64_no_ws bs h c hc]
  simp only [atob]
  rw [hf, if_pos (b64_len bs), strip_b64 bs h, if_neg (b64NoPad_len bs)]
  exact decode64_noPad bs h

theorem char_valid_nat (c : Char) :
    c.toNat < 0xD800 ∨ (0xDFFF < c.toNat ∧ c.toNat < 0x110000) := c.valid

theorem utf8EncodeChar_lt (c : Char) : ∀ b ∈ utf8EncodeChar c, b < 256 := by
  intro b hb
  have hval := char_valid_nat c
  rw [utf8EncodeChar] at hb
  by_cases h1 : c.toNat < 0x80
  · rw [if_pos h1] at hb
    simp only [List.mem_singleton] at hb
    omega
  · rw [if_neg h1] at hb
    by_cases h2 : c.toNat < 0x800
    · rw [if_pos h2] at hb
      simp only [List.mem_cons, List.not_mem_nil, or_false] at hb
      rcases hb with rfl | rfl <;> omega
    · rw [if_neg h2] at hb
      by_cases h3 : c.toNat < 0x10000
      · rw [if_pos h3] at hb
        simp only [List.mem_cons, List.not_mem_nil, or_false] at hb
        rcases hb with rfl | rfl | rfl <;> omega
      · rw [if_neg h3] at hb
        simp only [List.mem_cons, List.not_mem_nil, or_false] at hb
        rcases hb with rfl | rfl | rfl | rfl <;> omega

theorem utf8Encode_lt : ∀ (cs : List Char), ∀ b ∈ utf8Encode cs, b < 256
  | [], b, hb => by simp [utf8Encode] at hb
  | c :: rest, b, hb => by
    rw [utf8Encode] at hb
    rcases List.mem_append.mp hb with hb | hb
    · exact utf8EncodeChar_lt c b hb
    · exact utf8Encode_lt rest b hb

/-- The UTF-8 decoder inverts the encoder character by character. -/
theorem utf8Decode_encodeChar (c : Char) (bs : List Nat) :
    utf8Decode (utf8EncodeChar c ++ bs) = c :: utf8Decode bs := by
  have hval := char_valid_nat c
  rw [utf8EncodeChar]
  by_cases h1 : c.toNat < 0x80
  · have hstep : utf8Step c.toNat bs = (c, bs) := by
      rw [utf8Step.eq_def, if_pos h1, Char.ofNat_toNat]
    rw [if_pos h1, List.cons_append, List.nil_append, utf8Decode, hstep]
  · rw [if_neg h1]
    by_cases h2 : c.toNat < 0x800
    · have hcont : contOK (0x80 + c.toNat % 64) = true := by
        simp only [contOK, decide_eq_true_eq]
        omega
      have hstep : utf8Step (0xC0 + c.toNat / 64) ((0x80 + c.toNat % 64) :: bs)
          = (c, bs) := by
        rw [utf8Step.eq_def, if_neg (by omega), if_neg (by omega), if_pos (by omega)]
        simp only []
        rw [if_pos hcont,
          show (0xC0 + c.toNat / 64 - 0xC0) * 64 + (0x80 + c.toNat % 64 - 0x80)
            = c.toNat by omega,
          Char.ofNat_toNat]
      rw [if_pos h2,
        show ([0xC0 + c.toNat / 64, 0x80 + c.toNat % 64] ++ bs)
          = (0xC0 + c.toNat / 64) :: (0x80 + c.toNat % 64) :: bs from rfl,
        utf8Decode, hstep]
    · by_cases h3 : c.toNat < 0x10000
      · have hcont : (cont3OK (0xE0 + c.toNat / 4096) (0x80 + c.toNat / 64 % 64) = true
            ∧ contOK (0x80 + c.toNat % 64) = true) := by
          constructor
          · rw [cont3OK]
            by_cases hE : 0xE0 + c.toNat / 4096 = 0xE0
            · rw [if_pos hE]
              simp only [decide_eq_true_eq]
              omega
            · rw [if_neg hE]
              by_cases hD : 0xE0 + c.toNat / 4096 = 0xED
              · rw [if_pos hD]
                simp only [decide_eq_true_eq]
                omega
              · rw [if_neg hD]
                simp only [contOK, decide_eq_true_eq]
                omega
          · simp only [contOK, decide_eq_true_eq]
            omega
        have hstep : utf8Step (0xE0 + c.toNat / 4096)
            ((0x80 + c.toNat / 64 % 64) :: (0x80 + c.toNat % 64) :: bs) = (c, bs) := by
          rw [utf8Step.eq_def, if_neg (by omega), if_neg (by omega), if_neg (by omega),
            if_pos (by omega)]
          simp only []
          rw [if_pos hcont,
            show (0xE0 + c.toNat / 4096 - 0xE0) * 4096
              + (0x80 + c.toNat / 64 % 64 - 0x80) * 64 + (0x80 + c.toNat % 64 - 0x80)
              = c.toNat by omega,
            Char.ofNat_toNat]
        rw [if_neg h2, if_pos h3,
          show ([0xE0 + c.toNat / 4096, 0x80 + c.toNat / 64 % 64, 0x80 + c.toNat % 64] ++ bs)
            = (0xE0 + c.toNat / 4096) :: (0x80 + c.toNat / 64 % 64)
                :: (0x80 + c.toNat % 64) :: bs from rfl,
          utf8Decode, hstep]
      · have hcont : (cont4OK (0xF0 + c.toNat / 262144) (0x80 + c.toNat / 4096 % 64) = true
            ∧ contOK (0x80 + c.toNat / 64 % 64) = true
            ∧ contOK (0x80 + c.toNat % 64) = true) := by
          refine ⟨?_, ?_, ?_⟩
          · rw [cont4OK]
            by_cases hF0 : 0xF0 + c.toNat / 262144 = 0xF0
            · rw [if_pos hF0]
              simp only [decide_eq_true_eq]
              omega
            · rw [if_neg hF0]
              by_cases hF4 : 0xF0 + c.toNat / 262144 = 0xF4
              · rw [if_pos hF4]
                simp only [decide_eq_true_eq]
                omega
              · rw [if_neg hF4]
                simp only [contOK, decide_eq_true_eq]
                omega
          · simp only [contOK, decide_eq_true_eq]
            omega
          · simp only [contOK, decide_eq_true_eq]
            omega
        have hstep : utf8Step (0xF0 + c.toNat / 262144)
            ((0x80 + c.toNat / 4096 % 64) :: (0x80 + c.toNat / 64 % 64)
              :: (0x80 + c.toNat % 64) :: bs) = (c, bs) := by
          rw [utf8Step.eq_def, if_neg (by omega), if_neg (by omega), if_neg (by omega),
            if_neg (by omega), if_pos (by omega)]
          simp only []
          rw [if_pos hcont,
            show (0xF0 + c.toNat / 262144 - 0xF0) * 262144
              + (0x80 + c.toNat / 4096 % 64 - 0x80) * 4096
              + (0x80 + c.toNat / 64 % 64 - 0x80) * 64 + (0x80 + c.toNat % 64 - 0x80)
              = c.toNat by omega,
            Char.ofNat_toNat]
        rw [if_neg h2, if_neg h3,
          show ([0xF0 + c.toNat / 262144, 0x80 + c.toNat / 4096 % 64,
              0x80 + c.toNat / 64 % 64, 0x80 + c.toNat % 64] ++ bs)
            = (0xF0 + c.toNat / 262144) :: (0x80 + c.toNat / 4096 % 64)
                :: (0x80 + c.toNat / 64 % 64) :: (0x80 + c.toNat % 64) :: bs from rfl,
          utf8Decode, hstep]

theorem utf8_roundtrip : ∀ (cs : List Char), utf8Decode (utf8Encode cs) = cs
  | [] => by rw [utf8Encode, utf8Decode]
  | c :: rest => by
    rw [utf8Encode, utf8Decode_encodeChar, utf8_roundtrip rest]

/-- C10: the base64 round-trip law.  `encodeBase64` is modelled from the
spec (the standard base64 encoding of the UTF-8 bytes); every Lean string of
scalar values is representable in UTF-8, so the law is unconditional:
decoding the encoding with `decodeBody` under the `"base64"` encoding
recovers the original string. -/
theorem decodeBody_encodeBase64_roundtrip (s : List Char) :
    decodeBody (encodeBase64 s) (some "base64".data) = s := by
  rw [decodeBody, if_neg (by decide), if_pos (by decide), encodeBase64,
    decodeBase64, atob_b64 _ (utf8Encode_lt s)]
  simp only []
  exact utf8_roundtrip s

end Fetch
